import Mathlib

/-
Verification of the CharLM hierarchical patch-based language model
(`model2.py`) against its natural-language specification.

Tensors are modelled as total functions from natural-number indices to
rationals; shapes are carried separately as explicit dimension arguments.
Exact real arithmetic is used (ℚ), with the transcendental functions that
the source delegates to the numerical backend (`exp`, `sqrt`, `gelu`,
`log`) taken as explicit function parameters, so every definition stays
executable.  The composition `masked_fill(mask == 0, -inf)` followed by
`softmax` is modelled by its exact semantics: restriction of the softmax
to the allowed entries (`e^{-inf} = 0`).
-/

set_option autoImplicit false

namespace CharLM

/-- Rank-1 tensor: a vector, indexed by one natural number. -/
abbrev Tensor1 : Type := ℕ → ℚ

/-- Rank-2 tensor. -/
abbrev Tensor2 : Type := ℕ → ℕ → ℚ

/-- Rank-3 tensor. -/
abbrev Tensor3 : Type := ℕ → ℕ → ℕ → ℚ

/-- Rank-4 tensor. -/
abbrev Tensor4 : Type := ℕ → ℕ → ℕ → ℕ → ℚ

/-- Output entry `o` of `nn.Linear(inF, _)` with weight `w` and bias `bias`
applied to the vector `x`.  A module constructed with `bias=False` is
represented by the zero bias function. -/
def linear (inF : ℕ) (w : Tensor2) (bias : Tensor1) (x : Tensor1) (o : ℕ) : ℚ :=
  bias o + ∑ c in Finset.range inF, w o c * x c

/-- Mean of the first `n` entries of a vector (`/ 0 = 0` covers the empty case,
matching the convention used throughout this development). -/
def meanR (n : ℕ) (f : Tensor1) : ℚ :=
  (∑ i in Finset.range n, f i) / n

/- ----------------------------------------------------------------
Patchify (model2.py, class Patchify, lines 117-143)
---------------------------------------------------------------- -/

/-- Merge of the sub-block axes: einops `rearrange(x, 'b k t d -> b (k t) d')`
(model2.py:128), `t` being the sub-block length. -/
def mergeSubBlocks (t : ℕ) (x : Tensor4) : Tensor3 :=
  fun bb i e => x bb (i / t) (i % t) e

/-- Model of `torch.roll(x, shifts=s, dims=1)` on a time axis of length `n`:
entry `i` of the result is entry `(i - s) mod n` of the input (model2.py:130). -/
def rollTime (n s : ℕ) (x : Tensor3) : Tensor3 :=
  fun bb i e => x bb ((i + n - s % n) % n) e

/-- Model of the in-place store `x[:, :m] = 0` (model2.py:131). -/
def zeroFirst (m : ℕ) (x : Tensor3) : Tensor3 :=
  fun bb i e => if i < m then 0 else x bb i e

/-- Output entry `(j, o)` of `nn.Conv1d(d, d, p, p)` (kernel and stride both
`p`) on a channels-last signal `x`: window `j` reads input positions
`j*p + m`, `m < p`.  The two `torch.transpose` calls surrounding
`self.downscale` in the source (model2.py:133-135) are absorbed into this
index convention. -/
def conv1d (d p : ℕ) (w : Tensor3) (bias : Tensor1) (x : Tensor2) (j o : ℕ) : ℚ :=
  bias o + ∑ c in Finset.range d, ∑ m in Finset.range p, w o c m * x (j * p + m) c

/-- Output length of `nn.Conv1d(_, _, p, p)` on an input of length `L`
(PyTorch requires `p ≤ L`). -/
def conv1dOutLen (p L : ℕ) : ℕ :=
  (L - p) / p + 1

/-- Length after padding `n` up to the next multiple of `t` (model2.py:138-141). -/
def padMult (t n : ℕ) : ℕ :=
  if n % t = 0 then n else n + (t - n % t)

/-- Model of the tail padding `F.pad(xp, (0, 0, 0, pad), 'constant', value=0)`:
entries at positions `≥ n` are zero. -/
def padZeros (n : ℕ) (x : Tensor3) : Tensor3 :=
  fun bb i e => if i < n then x bb i e else 0

/-- Value-level model of `Patchify.forward` (model2.py:126-143): merge the
sub-block axes, shift the time axis by `p - 1` and zero the first `p - 1`
positions (the causal guard), apply the strided convolution
`self.downscale = nn.Conv1d(n_embd, n_embd, p, p)`, and zero-pad the result
up to a multiple of `sub_block_size`.  The input `x` has shape
`(b, k, t, d)` with `t = sub_block_size`; the output time length is
`padMult t (conv1dOutLen p (k*t))`. -/
def Patchify.forward (p t k d : ℕ) (w : Tensor3) (bias : Tensor1) (x : Tensor4) : Tensor3 :=
  let L := k * t
  let shifted := zeroFirst (p - 1) (rollTime L (p - 1) (mergeSubBlocks t x))
  padZeros (conv1dOutLen p L) (fun bb j o => conv1d d p w bias (fun i c => shifted bb i c) j o)

/- ----------------------------------------------------------------
C1: Patchify causality
---------------------------------------------------------------- -/

/-- Concrete input for the C1 counterexample: patch_size 2, sub_block_size 2,
k = 1, n_embd 1; the value at flattened position 0 is 3, elsewhere 7. -/
def c1x : Tensor4 :=
  fun _ kk tt _ => if kk = 0 ∧ tt = 0 then 3 else 7

/-- Variant of `c1x` whose token at flattened position 0 is 4 instead of 3. -/
def c1x' : Tensor4 :=
  fun _ kk tt _ => if kk = 0 ∧ tt = 0 then 4 else 7

/-- Variant of `c1x` whose token at flattened position 1 is 9 instead of 7. -/
def c1y : Tensor4 :=
  fun _ kk tt _ => if kk = 0 ∧ tt = 0 then 3 else 9

/-- C1 (counterexample).  The claim states that patch embedding `j` is
invariant to all tokens at flattened positions `≥ j * patch_size`.  It is
false at `j = 0`: with patch_size 2, sub_block_size 2, k = 1, n_embd 1,
all-ones convolution weight and zero bias, the inputs `c1x` and `c1x'`
agree at every flattened position `≥ 1` and differ only at position
`0 = 0 * patch_size`, yet patch embedding 0 changes from 3 to 4.  The roll
by `patch_size - 1` makes patch `j` read the token at position `j * patch_size`
itself (its window covers positions `j*p - (p-1) .. j*p`). -/
theorem Patchify.forward_not_strictly_causal :
    (∀ bb i e, 1 ≤ i → mergeSubBlocks 2 c1x bb i e = mergeSubBlocks 2 c1x' bb i e) ∧
    Patchify.forward 2 2 1 1 (fun _ _ _ => 1) (fun _ => 0) c1x 0 0 0 = 3 ∧
    Patchify.forward 2 2 1 1 (fun _ _ _ => 1) (fun _ => 0) c1x' 0 0 0 = 4 := by
  refine ⟨fun bb i e h => ?_, ?_, ?_⟩
  case refine_2 =>
    norm_num [Patchify.forward, padZeros, conv1d, conv1dOutLen, zeroFirst, rollTime,
      mergeSubBlocks, c1x, Finset.sum_range_succ, Finset.sum_range_zero]
  case refine_3 =>
    norm_num [Patchify.forward, padZeros, conv1d, conv1dOutLen, zeroFirst, rollTime,
      mergeSubBlocks, c1x', Finset.sum_range_succ, Finset.sum_range_zero]
  simp only [mergeSubBlocks, c1x, c1x']
  have hne : ¬(i / 2 = 0 ∧ i % 2 = 0) := by omega
  simp [hne]

/-- C1 (amended).  Patch embedding `j` produced by `Patchify.forward` is a
function only of input tokens at flattened positions `≤ j * patch_size`
(not `< j * patch_size` as claimed): if two inputs agree at every flattened
position `≤ j * p`, the outputs agree at patch index `j`.  The hypothesis
`p ≤ k * t` is PyTorch's requirement that the convolution kernel not exceed
the input length. -/
theorem Patchify.forward_causal (p t k d : ℕ) (w : Tensor3) (bias : Tensor1)
    (x x' : Tensor4) (j : ℕ) (hpL : p ≤ k * t)
    (hagree : ∀ bb i e, i ≤ j * p → mergeSubBlocks t x bb i e = mergeSubBlocks t x' bb i e)
    (bb e : ℕ) :
    Patchify.forward p t k d w bias x bb j e = Patchify.forward p t k d w bias x' bb j e := by
  simp only [Patchify.forward, padZeros]
  by_cases hj : j < conv1dOutLen p (k * t)
  · simp only [hj, if_pos]
    simp only [conv1d]
    congr 1
    apply Finset.sum_congr rfl
    intro c _
    apply Finset.sum_congr rfl
    intro m hm
    have hmp : m < p := Finset.mem_range.mp hm
    congr 1
    simp only [zeroFirst, rollTime]
    by_cases hlt : j * p + m < p - 1
    · simp [hlt]
    · simp only [hlt, if_neg, not_false_iff]
      have hp1 : 1 ≤ p := by omega
      have hjb : j * p ≤ k * t - p := by
        have h1 : j ≤ (k * t - p) / p := by
          have := Nat.lt_succ_iff.mp (by simpa [conv1dOutLen] using hj)
          exact this
        calc j * p ≤ (k * t - p) / p * p := Nat.mul_le_mul_right p h1
          _ ≤ k * t - p := Nat.div_mul_le_self _ _
      have hiL : j * p + m < k * t := by omega
      have hs : (p - 1) % (k * t) = p - 1 := Nat.mod_eq_of_lt (by omega)
      rw [hs]
      have hsplit : j * p + m + k * t - (p - 1) = (j * p + m - (p - 1)) + k * t := by omega
      rw [hsplit, Nat.add_mod_right, Nat.mod_eq_of_lt (by omega)]
      exact hagree bb _ c (by omega)
  · simp [hj]

/-- C1 witness: the amended causality theorem applied at a concrete input.
`c1x` and `c1y` agree at flattened position `0 = j * p` (for `j = 0`) and
differ only at position 1, so patch embedding 0 is unchanged. -/
theorem Patchify.forward_causal_witness :
    2 ≤ 1 * 2 ∧
    Patchify.forward 2 2 1 1 (fun _ _ _ => 1) (fun _ => 0) c1x 0 0 0 =
      Patchify.forward 2 2 1 1 (fun _ _ _ => 1) (fun _ => 0) c1y 0 0 0 :=
  ⟨by norm_num,
   Patchify.forward_causal 2 2 1 1 (fun _ _ _ => 1) (fun _ => 0) c1x c1y 0 (by norm_num)
     (fun bb i e hi => by
       have h0 : i = 0 := by omega
       subst h0
       rfl)
     0 0⟩

/- ----------------------------------------------------------------
CausalSelfAttention (model2.py, class CausalSelfAttention, lines 30-99)

Attention acts independently on every batch row of its input, so the
embedding works on one batch row at a time: `x : Tensor2` maps
`(time, channel)` to a value.  `T` is the sequence length, `C = n_embd`,
`nh = n_head`, `m = patch_per_sub_block = sub_block_size // patch_size`.
Dropout (`attn_dropout`, `resid_dropout`) is modelled as multiplication by
an arbitrary mask tensor, fixed per forward pass; the two compared runs of
claim C2 share the same masks ("same random seed/dropout state").
---------------------------------------------------------------- -/

/-- Weights of one `nn.Linear` module. -/
structure LinW where
  w : Tensor2
  b : Tensor1

/-- Query head entries of the packed `c_attn` projection (model2.py:70-72):
output rows `0..C-1` of `c_attn`. -/
def qProj (C : ℕ) (wAttn : LinW) (x : Tensor2) (t i : ℕ) : ℚ :=
  linear C wAttn.w wAttn.b (x t) i

/-- Key head entries: output rows `C..2C-1` of `c_attn`. -/
def kProj (C : ℕ) (wAttn : LinW) (x : Tensor2) (t i : ℕ) : ℚ :=
  linear C wAttn.w wAttn.b (x t) (C + i)

/-- Value head entries: output rows `2C..3C-1` of `c_attn`. -/
def vProj (C : ℕ) (wAttn : LinW) (x : Tensor2) (t i : ℕ) : ℚ :=
  linear C wAttn.w wAttn.b (x t) (2 * C + i)

/-- Head view of a `(T, C)` tensor: head `h`, position `t`, channel `i`
reads channel `h * hs + i` (the `view` + `transpose` of model2.py:71-73). -/
def headOf (hs : ℕ) (f : Tensor2) (h t i : ℕ) : ℚ :=
  f t (h * hs + i)

/-- Raw attention score `(q @ k^T) / sqrt(head_size)` (model2.py:83). -/
def attScore (C nh : ℕ) (sqrt : ℚ → ℚ) (wAttn : LinW) (x : Tensor2) (h q k : ℕ) : ℚ :=
  (∑ i in Finset.range (C / nh),
      headOf (C / nh) (qProj C wAttn x) h q i * headOf (C / nh) (kProj C wAttn x) h k i) *
    (1 / sqrt ((C / nh : ℕ) : ℚ))

/-- Causally masked softmax attention weight (model2.py:84-85).  The source
fills positions `k > q` with `-inf` and applies `softmax`; in exact
arithmetic that equals restricting the softmax to keys `k ≤ q`. -/
def attW (T C nh : ℕ) (fexp sqrt : ℚ → ℚ) (wAttn : LinW) (x : Tensor2) (h q k : ℕ) : ℚ :=
  if k ≤ q then
    fexp (attScore C nh sqrt wAttn x h q k) /
      ∑ j in (Finset.range T).filter (fun j => j ≤ q), fexp (attScore C nh sqrt wAttn x h q j)
  else 0

/-- Outside-sub-block attention statistic for one batch row (model2.py:86-92):
`att.masked_fill(inside_mask[:,:,:T,:T] == 0, 0.0)` keeps entry `(q, k)` iff
`k ≤ q - m` (the mask is `tril(ones, diagonal=-m)` with
`m = sub_block_size // patch_size`), then `.sum(-1)` sums over keys and
`.mean(-2)` averages over the head axis, yielding one scalar per position. -/
def outsideAttnRow (T C nh m : ℕ) (fexp sqrt : ℚ → ℚ) (wAttn : LinW) (x : Tensor2) (q : ℕ) : ℚ :=
  (∑ h in Finset.range nh, ∑ k in Finset.range T,
      if k + m ≤ q then attW T C nh fexp sqrt wAttn x h q k else 0) / (nh : ℚ)

/-- Attention output of head `h` at position `t` (model2.py:93-94): dropout
mask times attention weight, contracted with the value vectors. -/
def attnHeadOut (T C nh : ℕ) (fexp sqrt : ℚ → ℚ) (dAtt : Tensor3) (wAttn : LinW)
    (x : Tensor2) (h t i : ℕ) : ℚ :=
  ∑ k in Finset.range T,
    dAtt h t k * attW T C nh fexp sqrt wAttn x h t k * headOf (C / nh) (vProj C wAttn x) h k i

/-- Full attention output for one batch row (model2.py:95-98): heads merged
side by side, output projection `c_proj`, residual dropout. -/
def attnOut (T C nh : ℕ) (fexp sqrt : ℚ → ℚ) (dAtt : Tensor3) (dRes : Tensor2)
    (wAttn wProj : LinW) (x : Tensor2) (t e : ℕ) : ℚ :=
  dRes t e *
    linear C wProj.w wProj.b
      (fun c => attnHeadOut T C nh fexp sqrt dAtt wAttn x (c / (C / nh)) t (c % (C / nh))) e

/-- Model of `CausalSelfAttention.forward` on one batch row (model2.py:66-99),
on the reference (non-fused) attention path: returns the attended output and,
when `compute_stats` is set, the outside-attention statistic (otherwise the
source returns `outside_attn = None`). -/
def CausalSelfAttention.forward (computeStats : Bool) (T C nh m : ℕ)
    (fexp sqrt : ℚ → ℚ) (dAtt : Tensor3) (dRes : Tensor2) (wAttn wProj : LinW)
    (x : Tensor2) : Tensor2 × Option Tensor1 :=
  (fun t e => attnOut T C nh fexp sqrt dAtt dRes wAttn wProj x t e,
   if computeStats then some (outsideAttnRow T C nh m fexp sqrt wAttn x) else none)

/- ----------------------------------------------------------------
C5: the outside-attention statistic
---------------------------------------------------------------- -/

/-- Definition following the words of claim C5: zero the attention entries
within `m = sub_block_size / patch_size` positions back from the diagonal,
sum over keys, then average over QUERIES, as the claim prescribes.  Note the
result is indexed by head, not by sequence position: averaging over queries
consumes the position axis. -/
def specOutsideAttnQueryAvg (T C nh m : ℕ) (fexp sqrt : ℚ → ℚ) (wAttn : LinW)
    (x : Tensor2) (h : ℕ) : ℚ :=
  (∑ q in Finset.range T, ∑ k in Finset.range T,
      if k + m ≤ q then attW T C nh fexp sqrt wAttn x h q k else 0) / (T : ℚ)

/-- Zero weights for the concrete attention instances below. -/
def linZero : LinW :=
  ⟨fun _ _ => 0, fun _ => 0⟩

/-- C5 (counterexample).  The claim says the outside-attention quantity is
obtained by summing over keys and "averaging over queries, yielding exactly
one scalar per batch element per sequence position".  The code averages over
the HEAD axis (`mean(-2)` after `sum(-1)` acts on the head dimension of the
`(B, nh, T)` tensor, model2.py:92).  Concretely, with `T = 2`, `n_embd = 1`,
`n_head = 1`, `m = 1`, constant `exp` (uniform attention) and zero weights,
the code yields `1/2` at position 1, whereas the claim's
sum-over-keys-average-over-queries recipe yields `1/4` (and carries no
position index at all). -/
theorem CausalSelfAttention.outside_attn_not_query_averaged :
    outsideAttnRow 2 1 1 1 (fun _ => 1) (fun _ => 1) linZero (fun _ _ => 0) 1 = 1 / 2 ∧
    specOutsideAttnQueryAvg 2 1 1 1 (fun _ => 1) (fun _ => 1) linZero (fun _ _ => 0) 0 = 1 / 4 ∧
    (1 / 2 : ℚ) ≠ 1 / 4 := by
  have hc : (Finset.filter (fun j => j ≤ 1) (Finset.range 2)).card = 2 := by decide
  refine ⟨?_, ?_, by norm_num⟩
  · norm_num [outsideAttnRow, attW, Finset.sum_filter, Finset.sum_range_succ,
      Finset.sum_range_zero, hc]
  · norm_num [specOutsideAttnQueryAvg, attW, Finset.sum_filter, Finset.sum_range_succ,
      Finset.sum_range_zero, hc]

/-- C5 (amended).  When statistics are enabled, `CausalSelfAttention.forward`
computes the outside-attention quantity by zeroing all attention entries
within `m = sub_block_size / patch_size` positions back from the diagonal
(keeping only entries `k` with `k + m ≤ q`), summing over keys, and averaging
over the HEADS (not the queries), yielding exactly one scalar per batch row
per sequence position `q`. -/
theorem CausalSelfAttention.outside_attn_head_averaged (computeStats : Bool)
    (T C nh m : ℕ) (fexp sqrt : ℚ → ℚ) (dAtt : Tensor3) (dRes : Tensor2)
    (wAttn wProj : LinW) (x : Tensor2) :
    (CausalSelfAttention.forward computeStats T C nh m fexp sqrt dAtt dRes wAttn wProj x).2 =
      (if computeStats then some (outsideAttnRow T C nh m fexp sqrt wAttn x) else none) ∧
    (∀ q, outsideAttnRow T C nh m fexp sqrt wAttn x q =
      (∑ h in Finset.range nh,
          ∑ k in (Finset.range T).filter (fun k => k + m ≤ q),
            attW T C nh fexp sqrt wAttn x h q k) / (nh : ℚ)) := by
  refine ⟨rfl, fun q => ?_⟩
  simp [outsideAttnRow, Finset.sum_filter]

/- ----------------------------------------------------------------
LayerNorm (model2.py:19-28), MLP (model2.py:101-115),
Unpatchify (model2.py:145-159)
---------------------------------------------------------------- -/

/-- Model of `F.layer_norm(input, (d,), weight, bias, 1e-5)` on one vector:
biased variance over the last axis, `eps = 1/100000`.  A `LayerNorm`
constructed with `bias=False` is represented by the zero shift function. -/
def layerNorm (sqrt : ℚ → ℚ) (d : ℕ) (g bshift : Tensor1) (x : Tensor1) (e : ℕ) : ℚ :=
  (x e - meanR d x) / sqrt (meanR d (fun i => (x i - meanR d x) ^ 2) + 1 / 100000) * g e +
    bshift e

/-- LayerNorm applied position-wise to a `(T, C)` tensor. -/
def lnRows (sqrt : ℚ → ℚ) (d : ℕ) (g bshift : Tensor1) (x : Tensor2) : Tensor2 :=
  fun t e => layerNorm sqrt d g bshift (x t) e

/-- Model of `MLP.forward` on one batch row (model2.py:110-115): `c_fc`,
GELU, `c_proj`, dropout mask. -/
def MLP.forward (C : ℕ) (gelu : ℚ → ℚ) (wFc wProj : LinW) (dMlp : Tensor2)
    (x : Tensor2) (t e : ℕ) : ℚ :=
  dMlp t e * linear (4 * C) wProj.w wProj.b (fun c => gelu (linear C wFc.w wFc.b (x t) c)) e

/-- Output entry `(i, o)` of `nn.ConvTranspose1d(d, d, p, p)` (kernel and
stride both `p`): output position `i` receives the single window of input
position `i / p` at kernel offset `i % p`. -/
def convT1d (d p : ℕ) (w : Tensor3) (bias : Tensor1) (x : Tensor2) (i o : ℕ) : ℚ :=
  bias o + ∑ c in Finset.range d, w c o (i % p) * x (i / p) c

/-- Value-level model of `Unpatchify.forward` for one batch row
(model2.py:154-159): transposed convolution `self.upscale`, then
`rearrange(x, 'b d (k t) -> b k t d', t=sub_block_size)`. -/
def Unpatchify.forward (d p sub : ℕ) (w : Tensor3) (bias : Tensor1) (xp : Tensor2)
    (kk tt o : ℕ) : ℚ :=
  convT1d d p w bias xp (kk * sub + tt) o

/- ----------------------------------------------------------------
Block (model2.py, class Block, lines 161-210)
---------------------------------------------------------------- -/

/-- Weights of one transformer `Block`. -/
structure BlockW where
  ln1w : Tensor1
  ln1b : Tensor1
  attnW : LinW
  attnProj : LinW
  ln2w : Tensor1
  ln2b : Tensor1
  mlpFc : LinW
  mlpProj : LinW
  upW : Tensor3
  upB : Tensor1

/-- Dropout masks of one `Block` forward pass, indexed by packed batch row. -/
structure BlockDrop where
  att : ℕ → Tensor3
  res : ℕ → Tensor2
  mlp : ℕ → Tensor2

/-- Arguments of one `Block.forward` call: batch size `bsz`, sub-block count
`k`, time length `t` (equal to `sub` for every call made by `GPT.forward`),
embedding width `d`, head count `nh`, patch size `p`, configured
`sub_block_size` `sub`, the backend functions, weights, dropout masks, and
the two streams `x : (bsz, k, t, d)` and `xp : (bsz, t, d)`. -/
structure BlockIn where
  bsz : ℕ
  k : ℕ
  t : ℕ
  d : ℕ
  nh : ℕ
  p : ℕ
  sub : ℕ
  fexp : ℚ → ℚ
  sqrt : ℚ → ℚ
  gelu : ℚ → ℚ
  w : BlockW
  dp : BlockDrop
  x : Tensor4
  xp : Tensor3

/-- Row `r` of `pack([x, xp], '* t d')` (model2.py:179): rows `0..bsz*k-1`
hold the token stream (row `bi*k + kk`), rows `bsz*k..bsz*k+bsz-1` the patch
stream. -/
def packRows (bsz k : ℕ) (x : Tensor4) (xp : Tensor3) (r : ℕ) : Tensor2 :=
  if r < bsz * k then fun t e => x (r / k) (r % k) t e else fun t e => xp (r - bsz * k) t e

/-- Packed input of the shared layers. -/
def Block.packed (a : BlockIn) : ℕ → Tensor2 :=
  packRows a.bsz a.k a.x a.xp

/-- Normalized attention input `ln_1(x)` for packed row `r` (model2.py:180). -/
def Block.attnIn (a : BlockIn) (r : ℕ) : Tensor2 :=
  lnRows a.sqrt a.d a.w.ln1w a.w.ln1b (Block.packed a r)

/-- Packed stream after the attention residual `x = x + attn(ln_1(x))`
(model2.py:180-181).  The first component of the attention result does not
depend on the `compute_stats` flag `cs`. -/
def Block.x1 (cs : Bool) (a : BlockIn) (r : ℕ) : Tensor2 :=
  fun t e =>
    Block.packed a r t e +
      (CausalSelfAttention.forward cs a.t a.d a.nh (a.sub / a.p) a.fexp a.sqrt
          (a.dp.att r) (a.dp.res r) a.w.attnW a.w.attnProj (Block.attnIn a r)).1 t e

/-- Packed stream after the feed-forward residual `x = x + mlp(ln_2(x))`
(model2.py:182). -/
def Block.x2 (cs : Bool) (a : BlockIn) (r : ℕ) : Tensor2 :=
  fun t e =>
    Block.x1 cs a r t e +
      MLP.forward a.d a.gelu a.w.mlpFc a.w.mlpProj (a.dp.mlp r)
        (lnRows a.sqrt a.d a.w.ln2w a.w.ln2b (Block.x1 cs a r)) t e

/-- Token-stream part of the unpacked result (model2.py:183). -/
def Block.xTok (cs : Bool) (a : BlockIn) (bi kk : ℕ) : Tensor2 :=
  Block.x2 cs a (bi * a.k + kk)

/-- Patch-stream part of the unpacked result (model2.py:183); this is the
`xp` returned by `Block.forward`. -/
def Block.xpOut (cs : Bool) (a : BlockIn) (bi : ℕ) : Tensor2 :=
  Block.x2 cs a (a.bsz * a.k + bi)

/-- Sub-block count of the unpatchified patch stream `xu` (model2.py:184):
the transposed convolution expands time length `t` to `t * p`, which
`rearrange` splits into `t * p / sub` sub-blocks of length `sub`. -/
def Block.ku (a : BlockIn) : ℕ :=
  a.t * a.p / a.sub

/-- Unpatchified patch stream `xu = unpatchify(xp)` (model2.py:184). -/
def Block.xu (cs : Bool) (a : BlockIn) (bi : ℕ) : Tensor3 :=
  fun kk tt e => Unpatchify.forward a.d a.p a.sub a.w.upW a.w.upB (Block.xpOut cs a bi) kk tt e

/-- Index adjustment of PyTorch broadcasting on one axis: an axis of extent 1
is read at index 0. -/
def bcast (n i : ℕ) : ℕ :=
  if n = 1 then 0 else i

/-- Sub-block count of the fused token stream `x + xu` (broadcast of `k`
against `ku`; the addition is only defined when they are equal or one is 1). -/
def Block.kOut (a : BlockIn) : ℕ :=
  max a.k (Block.ku a)

/-- Fused token stream `x = x + xu` returned by `Block.forward`
(model2.py:208). -/
def Block.xOut (cs : Bool) (a : BlockIn) : Tensor4 :=
  fun bi kk tt e =>
    Block.xTok cs a bi (bcast a.k kk) tt e + Block.xu cs a bi (bcast (Block.ku a) kk) tt e

/- ----------------------------------------------------------------
Block statistics (model2.py:186-205)
---------------------------------------------------------------- -/

/-- Mean of all entries of an `(n1, n2)` tensor (`.mean()` in torch). -/
def mean2 (n1 n2 : ℕ) (f : Tensor2) : ℚ :=
  (∑ i in Finset.range n1, ∑ j in Finset.range n2, f i j) / ((n1 * n2 : ℕ) : ℚ)

/-- Mean of all entries of an `(n1, n2, n3)` tensor. -/
def mean3 (n1 n2 n3 : ℕ) (f : Tensor3) : ℚ :=
  (∑ i in Finset.range n1, ∑ j in Finset.range n2, ∑ l in Finset.range n3, f i j l) /
    ((n1 * n2 * n3 : ℕ) : ℚ)

/-- Model of `torch.std` over the last axis: Bessel-corrected sample standard
deviation `sqrt (∑ (x i - mean)² / (d - 1))`. -/
def stdR (sqrt : ℚ → ℚ) (d : ℕ) (f : Tensor1) : ℚ :=
  sqrt ((∑ i in Finset.range d, (f i - meanR d f) ^ 2) / ((d : ℚ) - 1))

/-- Per-layer statistics dictionary of `Block.forward` (model2.py:202-205). -/
structure BlockStats where
  outside_attn : ℚ
  patch_contrib : ℚ
  outside_contrib : ℚ
  inside_patch_contrib : ℚ

/-- Patch-stream part of the unpacked outside-attention tensor
(model2.py:189): the statistic produced by the attention layer, taken at the
packed patch rows `bsz*k + bi`. -/
def Block.oaP (cs : Bool) (a : BlockIn) : Tensor2 :=
  fun bi q =>
    ((CausalSelfAttention.forward cs a.t a.d a.nh (a.sub / a.p) a.fexp a.sqrt
          (a.dp.att (a.bsz * a.k + bi)) (a.dp.res (a.bsz * a.k + bi)) a.w.attnW a.w.attnProj
          (Block.attnIn a (a.bsz * a.k + bi))).2.getD (fun _ => 0)) q

/-- Outside-attention broadcast to token resolution (model2.py:190-191):
`repeat(oa, 'b t -> b (t k)', k=ku)` followed by
`rearrange(_, 'b (k t) -> b k t', k=ku)` reads `oa` at index
`(kk * t + tt) / ku`. -/
def Block.oaRep (cs : Bool) (a : BlockIn) : Tensor3 :=
  fun bi kk tt => Block.oaP cs a bi ((kk * a.t + tt) / Block.ku a)

/-- Standard deviation of `xu` across the embedding axis (model2.py:193). -/
def Block.xuStd (cs : Bool) (a : BlockIn) : Tensor3 :=
  fun bi kk tt => stdR a.sqrt a.d (fun e => Block.xu cs a bi kk tt e)

/-- Standard deviation of the token stream across the embedding axis
(model2.py:194). -/
def Block.xStd (cs : Bool) (a : BlockIn) : Tensor3 :=
  fun bi kk tt => stdR a.sqrt a.d (fun e => Block.xTok cs a bi kk tt e)

/-- Fraction of signal magnitude attributed to the patch pathway
(model2.py:195), with PyTorch broadcasting of the `k` axes. -/
def Block.patchContrib (cs : Bool) (a : BlockIn) : Tensor3 :=
  fun bi kk tt =>
    Block.xuStd cs a bi (bcast (Block.ku a) kk) tt /
      (Block.xStd cs a bi (bcast a.k kk) tt + Block.xuStd cs a bi (bcast (Block.ku a) kk) tt)

/-- Statistics dictionary computed by `Block.forward` when `compute_stats`
is enabled (model2.py:186-205): each entry is the mean of the corresponding
tensor over all its entries. -/
def Block.stats (cs : Bool) (a : BlockIn) : BlockStats where
  outside_attn := mean2 a.bsz a.t (Block.oaP cs a)
  patch_contrib := mean3 a.bsz (Block.kOut a) a.t (Block.patchContrib cs a)
  outside_contrib :=
    mean3 a.bsz (Block.kOut a) a.t
      (fun bi kk tt =>
        Block.patchContrib cs a bi kk tt * Block.oaRep cs a bi (bcast (Block.ku a) kk) tt)
  inside_patch_contrib :=
    mean3 a.bsz (Block.kOut a) a.t
      (fun bi kk tt =>
        Block.patchContrib cs a bi kk tt *
          (1 - Block.oaRep cs a bi (bcast (Block.ku a) kk) tt))

/-- Model of `Block.forward` (model2.py:173-210): returns the fused token
stream, the patch stream, and the statistics dictionary (`none` models the
empty dictionary returned when `compute_stats` is off). -/
def Block.forward (cs : Bool) (a : BlockIn) : ℕ × Tensor4 × Tensor3 × Option BlockStats :=
  (Block.kOut a, Block.xOut cs a, fun bi t e => Block.xpOut cs a bi t e,
   if cs then some (Block.stats cs a) else none)

/- ----------------------------------------------------------------
C6: bound lemmas for the statistics
---------------------------------------------------------------- -/

theorem attW_nonneg (T C nh : ℕ) (fexp sqrt : ℚ → ℚ) (wAttn : LinW) (x : Tensor2)
    (hexp : ∀ z, 0 < fexp z) (h q k : ℕ) :
    0 ≤ attW T C nh fexp sqrt wAttn x h q k := by
  unfold attW
  split
  · exact div_nonneg (le_of_lt (hexp _))
      (Finset.sum_nonneg fun j _ => le_of_lt (hexp _))
  · exact le_refl 0

theorem attW_sum_le_one (T C nh : ℕ) (fexp sqrt : ℚ → ℚ) (wAttn : LinW) (x : Tensor2)
    (hexp : ∀ z, 0 < fexp z) (h q : ℕ) :
    ∑ k in Finset.range T, attW T C nh fexp sqrt wAttn x h q k ≤ 1 := by
  unfold attW
  rw [← Finset.sum_filter, ← Finset.sum_div]
  set S := ∑ j in (Finset.range T).filter (fun j => j ≤ q),
    fexp (attScore C nh sqrt wAttn x h q j) with hS
  have hS0 : 0 ≤ S := Finset.sum_nonneg fun j _ => le_of_lt (hexp _)
  rcases eq_or_lt_of_le hS0 with h0 | hpos
  · rw [← h0, div_zero]
    norm_num
  · rw [div_self (ne_of_gt hpos)]

theorem masked_attW_sum_mem (T C nh m : ℕ) (fexp sqrt : ℚ → ℚ) (wAttn : LinW)
    (x : Tensor2) (hexp : ∀ z, 0 < fexp z) (h q : ℕ) :
    0 ≤ (∑ k in Finset.range T,
        if k + m ≤ q then attW T C nh fexp sqrt wAttn x h q k else 0) ∧
    (∑ k in Finset.range T,
        if k + m ≤ q then attW T C nh fexp sqrt wAttn x h q k else 0) ≤ 1 := by
  constructor
  · apply Finset.sum_nonneg
    intro k _
    split
    · exact attW_nonneg T C nh fexp sqrt wAttn x hexp h q k
    · exact le_refl 0
  · calc (∑ k in Finset.range T,
        if k + m ≤ q then attW T C nh fexp sqrt wAttn x h q k else 0)
        ≤ ∑ k in Finset.range T, attW T C nh fexp sqrt wAttn x h q k := by
          apply Finset.sum_le_sum
          intro k _
          split
          · exact le_refl _
          · exact attW_nonneg T C nh fexp sqrt wAttn x hexp h q k
      _ ≤ 1 := attW_sum_le_one T C nh fexp sqrt wAttn x hexp h q

theorem sum01_div_card (n : ℕ) (f : ℕ → ℚ)
    (hf : ∀ i ∈ Finset.range n, 0 ≤ f i ∧ f i ≤ 1) :
    0 ≤ (∑ i in Finset.range n, f i) / (n : ℚ) ∧
    (∑ i in Finset.range n, f i) / (n : ℚ) ≤ 1 := by
  have h0 : 0 ≤ ∑ i in Finset.range n, f i :=
    Finset.sum_nonneg fun i hi => (hf i hi).1
  have h1 : ∑ i in Finset.range n, f i ≤ (n : ℚ) := by
    calc ∑ i in Finset.range n, f i ≤ ∑ _i in Finset.range n, (1 : ℚ) :=
          Finset.sum_le_sum fun i hi => (hf i hi).2
      _ = (n : ℚ) := by simp
  refine ⟨div_nonneg h0 (Nat.cast_nonneg n), ?_⟩
  rcases Nat.eq_zero_or_pos n with hn | hn
  · subst hn
    simp
  · rw [div_le_one (by exact_mod_cast hn)]
    exact h1

theorem outsideAttnRow_mem (T C nh m : ℕ) (fexp sqrt : ℚ → ℚ) (wAttn : LinW)
    (x : Tensor2) (hexp : ∀ z, 0 < fexp z) (q : ℕ) :
    0 ≤ outsideAttnRow T C nh m fexp sqrt wAttn x q ∧
    outsideAttnRow T C nh m fexp sqrt wAttn x q ≤ 1 := by
  unfold outsideAttnRow
  exact sum01_div_card nh _ fun h _ =>
    masked_attW_sum_mem T C nh m fexp sqrt wAttn x hexp h q

theorem mean2_mem (n1 n2 : ℕ) (f : Tensor2)
    (hf : ∀ i ∈ Finset.range n1, ∀ j ∈ Finset.range n2, 0 ≤ f i j ∧ f i j ≤ 1) :
    0 ≤ mean2 n1 n2 f ∧ mean2 n1 n2 f ≤ 1 := by
  unfold mean2
  have h0 : 0 ≤ ∑ i in Finset.range n1, ∑ j in Finset.range n2, f i j :=
    Finset.sum_nonneg fun i hi =>
      Finset.sum_nonneg fun j hj => (hf i hi j hj).1
  have h1 : (∑ i in Finset.range n1, ∑ j in Finset.range n2, f i j) ≤ ((n1 * n2 : ℕ) : ℚ) := by
    push_cast
    calc ∑ i in Finset.range n1, ∑ j in Finset.range n2, f i j
        ≤ ∑ _i in Finset.range n1, (n2 : ℚ) := by
          apply Finset.sum_le_sum
          intro i hi
          calc ∑ j in Finset.range n2, f i j ≤ ∑ _j in Finset.range n2, (1 : ℚ) :=
                Finset.sum_le_sum fun j hj => (hf i hi j hj).2
            _ = (n2 : ℚ) := by simp
      _ = (n1 : ℚ) * (n2 : ℚ) := by simp [mul_comm]
  refine ⟨div_nonneg h0 (Nat.cast_nonneg _), ?_⟩
  rcases Nat.eq_zero_or_pos (n1 * n2) with hn | hn
  · rw [hn]
    simp
  · rw [div_le_one (by exact_mod_cast hn)]
    exact h1

theorem mean3_mem (n1 n2 n3 : ℕ) (f : Tensor3)
    (hf : ∀ i ∈ Finset.range n1, ∀ j ∈ Finset.range n2, ∀ l ∈ Finset.range n3,
      0 ≤ f i j l ∧ f i j l ≤ 1) :
    0 ≤ mean3 n1 n2 n3 f ∧ mean3 n1 n2 n3 f ≤ 1 := by
  unfold mean3
  have h0 : 0 ≤ ∑ i in Finset.range n1, ∑ j in Finset.range n2, ∑ l in Finset.range n3, f i j l :=
    Finset.sum_nonneg fun i hi => Finset.sum_nonneg fun j hj =>
      Finset.sum_nonneg fun l hl => (hf i hi j hj l hl).1
  have h1 : (∑ i in Finset.range n1, ∑ j in Finset.range n2, ∑ l in Finset.range n3, f i j l)
      ≤ ((n1 * n2 * n3 : ℕ) : ℚ) := by
    push_cast
    calc ∑ i in Finset.range n1, ∑ j in Finset.range n2, ∑ l in Finset.range n3, f i j l
        ≤ ∑ _i in Finset.range n1, ((n2 : ℚ) * (n3 : ℚ)) := by
          apply Finset.sum_le_sum
          intro i hi
          calc ∑ j in Finset.range n2, ∑ l in Finset.range n3, f i j l
              ≤ ∑ _j in Finset.range n2, (n3 : ℚ) := by
                apply Finset.sum_le_sum
                intro j hj
                calc ∑ l in Finset.range n3, f i j l ≤ ∑ _l in Finset.range n3, (1 : ℚ) :=
                      Finset.sum_le_sum fun l hl => (hf i hi j hj l hl).2
                  _ = (n3 : ℚ) := by simp
            _ = (n2 : ℚ) * (n3 : ℚ) := by simp [mul_comm]
      _ = (n1 : ℚ) * (n2 : ℚ) * (n3 : ℚ) := by
          simp [mul_comm, mul_assoc]
  refine ⟨div_nonneg h0 (Nat.cast_nonneg _), ?_⟩
  rcases Nat.eq_zero_or_pos (n1 * n2 * n3) with hn | hn
  · rw [hn]
    simp
  · rw [div_le_one (by exact_mod_cast hn)]
    exact h1

theorem stdR_nonneg (sqrt : ℚ → ℚ) (d : ℕ) (f : Tensor1)
    (hsqrt : ∀ z, 0 ≤ z → 0 ≤ sqrt z) : 0 ≤ stdR sqrt d f := by
  apply hsqrt
  rcases Nat.eq_zero_or_pos d with hd | hd
  · subst hd
    simp
  · apply div_nonneg
    · exact Finset.sum_nonneg fun i _ => sq_nonneg _
    · have h1 : (1 : ℚ) ≤ (d : ℚ) := by exact_mod_cast hd
      linarith

theorem ratio_mem_unit (xa xb : ℚ) (ha : 0 ≤ xa) (hb : 0 ≤ xb) :
    0 ≤ xa / (xb + xa) ∧ xa / (xb + xa) ≤ 1 := by
  refine ⟨div_nonneg ha (by linarith), ?_⟩
  rcases eq_or_lt_of_le (show (0 : ℚ) ≤ xb + xa by linarith) with h | h
  · rw [← h, div_zero]
    norm_num
  · rw [div_le_one h]
    linarith

theorem Block.oaP_true (a : BlockIn) (bi q : ℕ) :
    Block.oaP true a bi q =
      outsideAttnRow a.t a.d a.nh (a.sub / a.p) a.fexp a.sqrt a.w.attnW
        (Block.attnIn a (a.bsz * a.k + bi)) q := rfl

theorem Block.patchContrib_mem (cs : Bool) (a : BlockIn)
    (hsqrt : ∀ z, 0 ≤ z → 0 ≤ a.sqrt z) (bi kk tt : ℕ) :
    0 ≤ Block.patchContrib cs a bi kk tt ∧ Block.patchContrib cs a bi kk tt ≤ 1 := by
  unfold Block.patchContrib Block.xuStd Block.xStd
  exact ratio_mem_unit _ _ (stdR_nonneg a.sqrt a.d _ hsqrt) (stdR_nonneg a.sqrt a.d _ hsqrt)

theorem Block.oaRep_mem (a : BlockIn) (hexp : ∀ z, 0 < a.fexp z) (bi kk tt : ℕ) :
    0 ≤ Block.oaRep true a bi kk tt ∧ Block.oaRep true a bi kk tt ≤ 1 := by
  unfold Block.oaRep
  rw [Block.oaP_true]
  exact outsideAttnRow_mem a.t a.d a.nh (a.sub / a.p) a.fexp a.sqrt a.w.attnW _ hexp _

/-- C6.  When `compute_stats` is enabled, each of the four scalar statistics
returned per layer by `Block.forward` — `outside_attn`, `patch_contrib`,
`outside_contrib`, `inside_patch_contrib` — lies in `[0, 1]`, for every
input and every weight setting, provided the backend `exp` is positive and
the backend `sqrt` is nonnegative on nonnegative arguments (true of the
real functions the source delegates to torch). -/
theorem Block.forward_stats_bounded (a : BlockIn)
    (hexp : ∀ z, 0 < a.fexp z) (hsqrt : ∀ z, 0 ≤ z → 0 ≤ a.sqrt z) :
    (Block.forward true a).2.2.2 = some (Block.stats true a) ∧
    (0 ≤ (Block.stats true a).outside_attn ∧ (Block.stats true a).outside_attn ≤ 1) ∧
    (0 ≤ (Block.stats true a).patch_contrib ∧ (Block.stats true a).patch_contrib ≤ 1) ∧
    (0 ≤ (Block.stats true a).outside_contrib ∧ (Block.stats true a).outside_contrib ≤ 1) ∧
    (0 ≤ (Block.stats true a).inside_patch_contrib ∧
      (Block.stats true a).inside_patch_contrib ≤ 1) := by
  refine ⟨rfl, ?_, ?_, ?_, ?_⟩
  · simp only [Block.stats]
    apply mean2_mem
    intro i _ j _
    rw [Block.oaP_true]
    exact outsideAttnRow_mem a.t a.d a.nh (a.sub / a.p) a.fexp a.sqrt a.w.attnW _ hexp j
  · simp only [Block.stats]
    apply mean3_mem
    intro i _ j _ l _
    exact Block.patchContrib_mem true a hsqrt i j l
  · simp only [Block.stats]
    apply mean3_mem
    intro i _ j _ l _
    have h1 := Block.patchContrib_mem true a hsqrt i j l
    have h2 := Block.oaRep_mem a hexp i (bcast (Block.ku a) j) l
    exact ⟨mul_nonneg h1.1 h2.1, mul_le_one₀ h1.2 h2.1 h2.2⟩
  · simp only [Block.stats]
    apply mean3_mem
    intro i _ j _ l _
    have h1 := Block.patchContrib_mem true a hsqrt i j l
    have h2 := Block.oaRep_mem a hexp i (bcast (Block.ku a) j) l
    have h3 : 0 ≤ 1 - Block.oaRep true a i (bcast (Block.ku a) j) l := by linarith [h2.2]
    have h4 : 1 - Block.oaRep true a i (bcast (Block.ku a) j) l ≤ 1 := by linarith [h2.1]
    exact ⟨mul_nonneg h1.1 h3, mul_le_one₀ h1.2 h3 h4⟩

/-- All-zero weights for one block (used by the C6 witness). -/
def blockWZero : BlockW :=
  ⟨fun _ => 0, fun _ => 0, linZero, linZero, fun _ => 0, fun _ => 0, linZero, linZero,
   fun _ _ _ => 0, fun _ => 0⟩

/-- Identity (eval-mode) dropout masks. -/
def blockDropOne : BlockDrop :=
  ⟨fun _ _ _ _ => 1, fun _ _ _ => 1, fun _ _ _ => 1⟩

/-- Concrete one-of-everything block call: all dimensions 1, zero weights and
inputs, `exp = const 1`, `sqrt = abs`, `gelu = id`. -/
def blockInUnit : BlockIn :=
  ⟨1, 1, 1, 1, 1, 1, 1, fun _ => 1, fun z => |z|, fun z => z, blockWZero, blockDropOne,
   fun _ _ _ _ => 0, fun _ _ _ => 0⟩

/-- C6 witness: the bound theorem applied at the concrete call `blockInUnit`. -/
theorem Block.forward_stats_bounded_witness :
    (Block.forward true blockInUnit).2.2.2 = some (Block.stats true blockInUnit) ∧
    (0 ≤ (Block.stats true blockInUnit).outside_attn ∧
      (Block.stats true blockInUnit).outside_attn ≤ 1) ∧
    (0 ≤ (Block.stats true blockInUnit).patch_contrib ∧
      (Block.stats true blockInUnit).patch_contrib ≤ 1) ∧
    (0 ≤ (Block.stats true blockInUnit).outside_contrib ∧
      (Block.stats true blockInUnit).outside_contrib ≤ 1) ∧
    (0 ≤ (Block.stats true blockInUnit).inside_patch_contrib ∧
      (Block.stats true blockInUnit).inside_patch_contrib ≤ 1) :=
  Block.forward_stats_bounded blockInUnit (fun _ => one_pos) (fun z _ => abs_nonneg z)

/- ----------------------------------------------------------------
GPT (model2.py, class GPT, lines 226-326)
---------------------------------------------------------------- -/

/-- Weights of the whole model.  `wte` is the tied token-embedding /
output-projection matrix (model2.py:248); `lm_head` has no separate weight
field, faithfully to the post-tying state of the module. -/
structure GPTW where
  wte : Tensor2
  wpe : Tensor2
  patchW : Tensor3
  patchB : Tensor1
  blocks : List (BlockW × BlockDrop)
  lnFw : Tensor1
  lnFb : Tensor1

/-- Arguments of one `GPT.forward` call: batch size, input length, vocabulary
size, embedding width, head count, patch size, sub-block size, backend
functions, weights (with per-layer dropout masks), the embedding-dropout
masks, and the integer token ids. -/
structure GPTIn where
  bsz : ℕ
  totalT : ℕ
  vocab : ℕ
  d : ℕ
  nh : ℕ
  p : ℕ
  sub : ℕ
  fexp : ℚ → ℚ
  sqrt : ℚ → ℚ
  gelu : ℚ → ℚ
  flog : ℚ → ℚ
  w : GPTW
  dX : Tensor4
  dXp : Tensor3
  idx : ℕ → ℕ → ℕ

/-- Token embeddings `wte(idx)` (model2.py:285). -/
def GPT.tokEmb (g : GPTIn) : Tensor3 :=
  fun bb i e => g.w.wte (g.idx bb i) e

/-- Padded sub-block count `k = ceil(totalT / sub_block_size)`
(model2.py:288-292). -/
def GPT.kSub (g : GPTIn) : ℕ :=
  (g.totalT + g.sub - 1) / g.sub

/-- Token stream after zero padding, sub-block split and position embeddings
(model2.py:288-298): `x[b, kk, tt] = tok_emb[b, kk*sub+tt] + wpe[tt]`. -/
def GPT.x0 (g : GPTIn) : Tensor4 :=
  fun bb kk tt e =>
    (if kk * g.sub + tt < g.totalT then GPT.tokEmb g bb (kk * g.sub + tt) e else 0) +
      g.w.wpe tt e

/-- Initial patch stream: `patchify(x)` plus the same position embeddings
(model2.py:301-302). -/
def GPT.xp0 (g : GPTIn) : Tensor3 :=
  fun bb tt e =>
    Patchify.forward g.p g.sub (GPT.kSub g) g.d g.w.patchW g.w.patchB (GPT.x0 g) bb tt e +
      g.w.wpe tt e

/-- Token stream after the embedding dropout (model2.py:304). -/
def GPT.xDrop (g : GPTIn) : Tensor4 :=
  fun bb kk tt e => g.dX bb kk tt e * GPT.x0 g bb kk tt e

/-- Patch stream after the embedding dropout (model2.py:305). -/
def GPT.xpDrop (g : GPTIn) : Tensor3 :=
  fun bb tt e => g.dXp bb tt e * GPT.xp0 g bb tt e

/-- State threaded through the block loop: current sub-block count, token
stream, patch stream, and the list of per-layer statistics. -/
abbrev GPTState : Type := ℕ × Tensor4 × Tensor3 × List (Option BlockStats)

/-- One iteration of the block loop (model2.py:309-311). -/
def GPT.step (cs : Bool) (g : GPTIn) (st : GPTState) (lw : BlockW × BlockDrop) : GPTState :=
  let a : BlockIn :=
    ⟨g.bsz, st.1, g.sub, g.d, g.nh, g.p, g.sub, g.fexp, g.sqrt, g.gelu, lw.1, lw.2,
     st.2.1, st.2.2.1⟩
  let r := Block.forward cs a
  (r.1, r.2.1, r.2.2.1, st.2.2.2 ++ [r.2.2.2])

/-- State after all transformer blocks (model2.py:308-311). -/
def GPT.afterBlocks (cs : Bool) (g : GPTIn) : GPTState :=
  g.w.blocks.foldl (GPT.step cs g) (GPT.kSub g, GPT.xDrop g, GPT.xpDrop g, [])

/-- Final token representation: `ln_f`, then
`rearrange(x, 'b k t d -> b (k t) d')` (model2.py:312-315); the subsequent
slice `x[:, :total_t]` selects positions `i < totalT` of this tensor. -/
def GPT.xFinal (cs : Bool) (g : GPTIn) : Tensor3 :=
  fun bb i e =>
    layerNorm g.sqrt g.d g.w.lnFw g.w.lnFb
      (fun ee => (GPT.afterBlocks cs g).2.1 bb (i / g.sub) (i % g.sub) ee) e

/-- Logits `lm_head(x)` (model2.py:319): the projection weight is the tied
matrix `wte`, and `lm_head` has no bias. -/
def GPT.logits (cs : Bool) (g : GPTIn) : Tensor3 :=
  fun bb i v => linear g.d g.w.wte (fun _ => 0) (fun ee => GPT.xFinal cs g bb i ee) v

/-- Cross-entropy loss with `ignore_index = -1` (model2.py:320): mean over
the non-ignored positions of `-log softmax(logits)[target]`. -/
def GPT.loss (cs : Bool) (g : GPTIn) (targets : ℕ → ℕ → ℤ) : ℚ :=
  (∑ bb in Finset.range g.bsz, ∑ i in Finset.range g.totalT,
      if targets bb i = -1 then 0
      else
        -(g.flog (g.fexp (GPT.logits cs g bb i (targets bb i).toNat) /
            ∑ v in Finset.range g.vocab, g.fexp (GPT.logits cs g bb i v)))) /
    (∑ bb in Finset.range g.bsz, ∑ i in Finset.range g.totalT,
      if targets bb i = -1 then 0 else 1)

/- ----------------------------------------------------------------
C2: statistics are purely additive instrumentation
---------------------------------------------------------------- -/

/-- Stream part of the loop state (everything except the statistics list). -/
def GPTState.streams (st : GPTState) : ℕ × Tensor4 × Tensor3 :=
  (st.1, st.2.1, st.2.2.1)

theorem Block.forward_streams_eq (cs cs' : Bool) (a : BlockIn) :
    ((Block.forward cs a).1, (Block.forward cs a).2.1, (Block.forward cs a).2.2.1) =
      ((Block.forward cs' a).1, (Block.forward cs' a).2.1, (Block.forward cs' a).2.2.1) := rfl

theorem GPT.step_streams (cs cs' : Bool) (g : GPTIn) (st st' : GPTState)
    (hst : GPTState.streams st = GPTState.streams st') (lw : BlockW × BlockDrop) :
    GPTState.streams (GPT.step cs g st lw) = GPTState.streams (GPT.step cs' g st' lw) := by
  have h1 : st.1 = st'.1 := congrArg (fun z : ℕ × Tensor4 × Tensor3 => z.1) hst
  have h2 : st.2.1 = st'.2.1 := congrArg (fun z : ℕ × Tensor4 × Tensor3 => z.2.1) hst
  have h3 : st.2.2.1 = st'.2.2.1 := congrArg (fun z : ℕ × Tensor4 × Tensor3 => z.2.2) hst
  simp only [GPT.step, GPTState.streams, h1, h2, h3]
  exact Block.forward_streams_eq cs cs' _

theorem GPT.foldl_streams (cs cs' : Bool) (g : GPTIn) (bs : List (BlockW × BlockDrop)) :
    ∀ st st' : GPTState, GPTState.streams st = GPTState.streams st' →
      GPTState.streams (bs.foldl (GPT.step cs g) st) =
        GPTState.streams (bs.foldl (GPT.step cs' g) st') := by
  induction bs with
  | nil => intro st st' h; simpa using h
  | cons hd tl ih =>
      intro st st' h
      simp only [List.foldl_cons]
      exact ih _ _ (GPT.step_streams cs cs' g st st' h hd)

/-- C2.  Statistics are purely additive instrumentation: on the reference
(non-fused) attention path modelled here, a `GPT.forward` pass with
`compute_stats` enabled and with it disabled produces identical logits and
identical loss, for every configuration, every weight setting, every
dropout-mask assignment (the "same random seed/dropout state") and every
input; the statistics computation never feeds back into the token stream,
the patch stream, the logits or the loss. -/
theorem GPT.forward_stats_additive (g : GPTIn) (targets : ℕ → ℕ → ℤ) :
    (∀ bb i v, GPT.logits true g bb i v = GPT.logits false g bb i v) ∧
    GPT.loss true g targets = GPT.loss false g targets := by
  have hstreams : GPTState.streams (GPT.afterBlocks true g) =
      GPTState.streams (GPT.afterBlocks false g) :=
    GPT.foldl_streams true false g g.w.blocks _ _ rfl
  have hx : (GPT.afterBlocks true g).2.1 = (GPT.afterBlocks false g).2.1 :=
    congrArg (fun z => z.2.1) hstreams
  have hlog : ∀ bb i v, GPT.logits true g bb i v = GPT.logits false g bb i v := by
    intro bb i v
    simp only [GPT.logits, GPT.xFinal, hx]
  refine ⟨hlog, ?_⟩
  simp only [GPT.loss]
  congr 1
  apply Finset.sum_congr rfl
  intro bb _
  apply Finset.sum_congr rfl
  intro i _
  have hval : ∀ v, GPT.logits true g bb i v = GPT.logits false g bb i v := fun v => hlog bb i v
  simp only [hval]

/- ----------------------------------------------------------------
Shape-level semantics of GPT.forward (for the definedness claims C3/C4/C9).

PyTorch raises on shape mismatches; this calculus mirrors `GPT.forward`
operation by operation, propagating the shapes the source produces and
returning `none` exactly where the source raises: the `Conv1d` kernel-size
requirement in `Patchify` (model2.py:134), the shared time length required
by `pack` (model2.py:179), the causal-mask slice (model2.py:84), the
`rearrange` divisibility in `Unpatchify` (model2.py:158), and the broadcast
rule of the fusion `x + xu` (model2.py:208).
---------------------------------------------------------------- -/

/-- Configuration fields of `GPTConfig` relevant to shapes (model2.py:212-224). -/
structure Cfg where
  blockSize : ℕ
  vocabSize : ℕ
  nLayer : ℕ
  subBlockSize : ℕ
  patchSize : ℕ

/-- Output length of `nn.Conv1d(_, _, p, p)`; PyTorch raises unless the
kernel fits, i.e. `0 < p ∧ p ≤ L`. -/
def conv1dLen (p L : ℕ) : Option ℕ :=
  if 0 < p ∧ p ≤ L then some ((L - p) / p + 1) else none

/-- Time length of `Patchify.forward` output on `k` sub-blocks
(model2.py:126-143): convolution output length, padded to a multiple of
`sub_block_size`. -/
def patchifyLen (cfg : Cfg) (k : ℕ) : Option ℕ :=
  match conv1dLen cfg.patchSize (k * cfg.subBlockSize) with
  | none => none
  | some n => some (padMult cfg.subBlockSize n)

/-- Sub-block count of `Unpatchify.forward` output on a patch stream of time
length `tp` (model2.py:154-159): `ConvTranspose1d` expands to `tp * p`,
`rearrange` requires divisibility by `sub_block_size`. -/
def unpatchifyLen (cfg : Cfg) (tp : ℕ) : Option ℕ :=
  if 0 < tp ∧ 0 < cfg.subBlockSize ∧ cfg.subBlockSize ∣ tp * cfg.patchSize then
    some (tp * cfg.patchSize / cfg.subBlockSize)
  else none

/-- PyTorch broadcast of two extents of one axis: defined iff they are equal
or one of them is 1 (the fusion `x + xu` of model2.py:208). -/
def addBroadcastLen (k ku : ℕ) : Option ℕ :=
  if k = ku then some k
  else if k = 1 then some ku
  else if ku = 1 then some k
  else none

/-- Shape behaviour of one `Block.forward` call (model2.py:173-210) on a
token stream of `k` sub-blocks and a patch stream of time length `tp`:
`pack` needs the two streams to share the time length `sub_block_size`,
attention needs the time length to fit the causal-mask buffer, and the
fusion broadcasts `k` against the unpatchified sub-block count. -/
def blockLen (cfg : Cfg) (st : ℕ × ℕ) : Option (ℕ × ℕ) :=
  if st.2 = cfg.subBlockSize ∧ cfg.subBlockSize ≤ cfg.blockSize then
    match unpatchifyLen cfg st.2 with
    | none => none
    | some ku =>
      match addBroadcastLen st.1 ku with
      | none => none
      | some k2 => some (k2, st.2)
  else none

/-- Shape behaviour of the loop over `transformer.h` (model2.py:309-311). -/
def blocksLen (cfg : Cfg) : ℕ → ℕ × ℕ → Option (ℕ × ℕ)
  | 0, st => some st
  | n + 1, st =>
    match blocksLen cfg n st with
    | none => none
    | some st' => blockLen cfg st'

/-- Shape behaviour of `GPT.forward` (model2.py:280-326) on a batch of `b`
sequences of length `totalT`: returns the logits shape `(b, time, vocab)`,
or `none` where the source raises.  With targets the logits cover every
position (time `totalT`); without targets only the last position is
projected (`x[:, [-1], :]`, model2.py:323). -/
def gptForwardLen (cfg : Cfg) (b totalT : ℕ) (hasTargets : Bool) : Option (ℕ × ℕ × ℕ) :=
  if 0 < cfg.subBlockSize then
    let k := (totalT + cfg.subBlockSize - 1) / cfg.subBlockSize
    match patchifyLen cfg k with
    | none => none
    | some tp =>
      match blocksLen cfg cfg.nLayer (k, tp) with
      | none => none
      | some st =>
        let tOut := min totalT (st.1 * cfg.subBlockSize)
        if hasTargets then some (b, tOut, cfg.vocabSize)
        else if 0 < tOut then some (b, 1, cfg.vocabSize) else none
  else none

/- ----------------------------------------------------------------
Arithmetic lemmas for the shape calculus
---------------------------------------------------------------- -/

theorem conv1dLen_valid (p L : ℕ) (hp : 0 < p) (hL : p ≤ L) :
    conv1dLen p L = some (L / p) := by
  unfold conv1dLen
  rw [if_pos ⟨hp, hL⟩]
  congr 1
  have h1 : L = (L - p) + p := by omega
  calc (L - p) / p + 1 = ((L - p) + p) / p := (Nat.add_div_right _ hp).symm
    _ = L / p := by rw [← h1]

theorem padMult_eq_sub (sub n : ℕ) (_hsub : 0 < sub) (h1 : 1 ≤ n) (h2 : n ≤ sub) :
    padMult sub n = sub := by
  unfold padMult
  by_cases h : n % sub = 0
  · rw [if_pos h]
    have hd : sub ∣ n := Nat.dvd_of_mod_eq_zero h
    have := Nat.le_of_dvd (by omega) hd
    omega
  · rw [if_neg h]
    have hlt : n < sub := by
      rcases Nat.lt_or_ge n sub with hl | hg
      · exact hl
      · have hn : n = sub := by omega
        rw [hn, Nat.mod_self] at h
        exact absurd rfl h
    have hm : n % sub = n := Nat.mod_eq_of_lt hlt
    omega

theorem padMult_of_multiple (sub k : ℕ) : padMult sub (k * sub) = k * sub := by
  unfold padMult
  rw [if_pos (Nat.mul_mod_left k sub)]

theorem le_ceil_mul (sub totalT : ℕ) (hsub : 0 < sub) :
    totalT ≤ ((totalT + sub - 1) / sub) * sub := by
  have key := Nat.div_add_mod (totalT + sub - 1) sub
  have hr := Nat.mod_lt (totalT + sub - 1) hsub
  rw [mul_comm] at key
  omega

theorem patchifyLen_eq_sub (cfg : Cfg) (k : ℕ) (hsub : 0 < cfg.subBlockSize)
    (hp : 0 < cfg.patchSize) (hkp : k ≤ cfg.patchSize)
    (hpL : cfg.patchSize ≤ k * cfg.subBlockSize) :
    patchifyLen cfg k = some cfg.subBlockSize := by
  unfold patchifyLen
  rw [conv1dLen_valid _ _ hp hpL]
  show some (padMult cfg.subBlockSize (k * cfg.subBlockSize / cfg.patchSize)) =
    some cfg.subBlockSize
  congr 1
  apply padMult_eq_sub _ _ hsub
  · exact (Nat.one_le_div_iff hp).mpr hpL
  · calc k * cfg.subBlockSize / cfg.patchSize
        ≤ cfg.patchSize * cfg.subBlockSize / cfg.patchSize :=
          Nat.div_le_div_right (Nat.mul_le_mul_right _ hkp)
      _ = cfg.subBlockSize := Nat.mul_div_cancel_left _ hp

theorem unpatchifyLen_sub (cfg : Cfg) (hsub : 0 < cfg.subBlockSize) :
    unpatchifyLen cfg cfg.subBlockSize = some cfg.patchSize := by
  unfold unpatchifyLen
  rw [if_pos ⟨hsub, hsub, dvd_mul_right _ _⟩]
  congr 1
  exact Nat.mul_div_cancel_left _ hsub

theorem addBroadcastLen_self (k : ℕ) : addBroadcastLen k k = some k := by
  unfold addBroadcastLen
  rw [if_pos rfl]

theorem addBroadcastLen_one_left (p : ℕ) : addBroadcastLen 1 p = some p := by
  unfold addBroadcastLen
  by_cases h : (1 : ℕ) = p
  · rw [if_pos h, h]
  · rw [if_neg h, if_pos rfl]

theorem addBroadcastLen_none (k p : ℕ) (h1 : k ≠ p) (h2 : k ≠ 1) (h3 : p ≠ 1) :
    addBroadcastLen k p = none := by
  unfold addBroadcastLen
  rw [if_neg h1, if_neg h2, if_neg h3]

theorem blockLen_of_k (cfg : Cfg) (k : ℕ) (hsub : 0 < cfg.subBlockSize)
    (hsb : cfg.subBlockSize ≤ cfg.blockSize) :
    blockLen cfg (k, cfg.subBlockSize) =
      match addBroadcastLen k cfg.patchSize with
      | none => none
      | some k2 => some (k2, cfg.subBlockSize) := by
  unfold blockLen
  rw [if_pos ⟨rfl, hsb⟩, unpatchifyLen_sub cfg hsub]

theorem blocksLen_fixed (cfg : Cfg) (st : ℕ × ℕ) (hfix : blockLen cfg st = some st) :
    ∀ n, blocksLen cfg n st = some st := by
  intro n
  induction n with
  | zero => rfl
  | succ n ih => simp only [blocksLen, ih, hfix]

theorem blocksLen_after_one (cfg : Cfg) (st st' : ℕ × ℕ)
    (h1 : blockLen cfg st = some st') (hfix : blockLen cfg st' = some st') :
    ∀ n, 1 ≤ n → blocksLen cfg n st = some st' := by
  intro n hn
  induction n with
  | zero => omega
  | succ n ih =>
      rcases Nat.eq_zero_or_pos n with rfl | hpos
      · simp only [blocksLen, h1]
      · simp only [blocksLen, ih hpos, hfix]

theorem blocksLen_none (cfg : Cfg) (st : ℕ × ℕ) (h : blockLen cfg st = none) :
    ∀ n, 1 ≤ n → blocksLen cfg n st = none := by
  intro n hn
  induction n with
  | zero => omega
  | succ n ih =>
      rcases Nat.eq_zero_or_pos n with rfl | hpos
      · simp only [blocksLen, h]
      · simp only [blocksLen, ih hpos]

theorem gptForwardLen_eq (cfg : Cfg) (b totalT : ℕ) (ht : Bool)
    (hsub : 0 < cfg.subBlockSize) :
    gptForwardLen cfg b totalT ht =
      (match patchifyLen cfg ((totalT + cfg.subBlockSize - 1) / cfg.subBlockSize) with
       | none => none
       | some tp =>
         match blocksLen cfg cfg.nLayer
             ((totalT + cfg.subBlockSize - 1) / cfg.subBlockSize, tp) with
         | none => none
         | some st =>
           if ht then some (b, min totalT (st.1 * cfg.subBlockSize), cfg.vocabSize)
           else if 0 < min totalT (st.1 * cfg.subBlockSize) then
             some (b, 1, cfg.vocabSize)
           else none) := by
  unfold gptForwardLen
  rw [if_pos hsub]

/-- Core definedness fact: whenever the padded sub-block count is neither 1
nor `patch_size`, some operation of the forward pass is undefined and the
shape semantics returns `none`. -/
theorem gptForwardLen_none_of_k_bad (cfg : Cfg) (b totalT : ℕ) (ht : Bool)
    (hsub : 0 < cfg.subBlockSize) (hn : 1 ≤ cfg.nLayer)
    (hk1 : (totalT + cfg.subBlockSize - 1) / cfg.subBlockSize ≠ 1)
    (hkp : (totalT + cfg.subBlockSize - 1) / cfg.subBlockSize ≠ cfg.patchSize) :
    gptForwardLen cfg b totalT ht = none := by
  rw [gptForwardLen_eq cfg b totalT ht hsub]
  set k := (totalT + cfg.subBlockSize - 1) / cfg.subBlockSize with hkdef
  by_cases hcond : 0 < cfg.patchSize ∧ cfg.patchSize ≤ k * cfg.subBlockSize
  · have hpat : patchifyLen cfg k =
        some (padMult cfg.subBlockSize (k * cfg.subBlockSize / cfg.patchSize)) := by
      unfold patchifyLen
      rw [conv1dLen_valid _ _ hcond.1 hcond.2]
    set tp := padMult cfg.subBlockSize (k * cfg.subBlockSize / cfg.patchSize) with htpdef
    have hbl : blockLen cfg (k, tp) = none := by
      by_cases htp : tp = cfg.subBlockSize
      · have hp1 : cfg.patchSize ≠ 1 := by
          intro hp1
          apply hk1
          have hdiv : k * cfg.subBlockSize / cfg.patchSize = k * cfg.subBlockSize := by
            rw [hp1, Nat.div_one]
          rw [htpdef, hdiv, padMult_of_multiple] at htp
          have : k * cfg.subBlockSize = 1 * cfg.subBlockSize := by
            rw [htp, one_mul]
          exact Nat.eq_of_mul_eq_mul_right hsub this
        by_cases hsb : cfg.subBlockSize ≤ cfg.blockSize
        · rw [htp, blockLen_of_k cfg k hsub hsb,
            addBroadcastLen_none k cfg.patchSize hkp hk1 hp1]
        · unfold blockLen
          rw [if_neg (fun hand => hsb hand.2)]
      · unfold blockLen
        rw [if_neg (fun hand => htp hand.1)]
    simp only [hpat, blocksLen_none cfg (k, tp) hbl cfg.nLayer hn]
  · have hpat : patchifyLen cfg k = none := by
      unfold patchifyLen conv1dLen
      rw [if_neg hcond]
    simp only [hpat]

/- ----------------------------------------------------------------
C4: forward is defined only for k = 1 or k = patch_size
---------------------------------------------------------------- -/

/-- C4.  For every input length `totalT` whose padded sub-block count
`k = ceil(totalT / sub_block_size)` satisfies `1 < k < patch_size`,
`GPT.forward` fails with a shape error (the unpatchified patch stream spans
`patch_size` sub-blocks while the token stream spans `k`, so the fusion
`x + xu` is undefined), returning no logits or loss; and the forward pass
succeeds only when `k = 1` or `k = patch_size`. -/
theorem GPT.forward_defined_only_k_one_or_patch (cfg : Cfg) (b totalT : ℕ) (ht : Bool)
    (hsub : 0 < cfg.subBlockSize) (hn : 1 ≤ cfg.nLayer) :
    (1 < (totalT + cfg.subBlockSize - 1) / cfg.subBlockSize →
      (totalT + cfg.subBlockSize - 1) / cfg.subBlockSize < cfg.patchSize →
      gptForwardLen cfg b totalT ht = none) ∧
    (∀ r, gptForwardLen cfg b totalT ht = some r →
      (totalT + cfg.subBlockSize - 1) / cfg.subBlockSize = 1 ∨
      (totalT + cfg.subBlockSize - 1) / cfg.subBlockSize = cfg.patchSize) := by
  constructor
  · intro h1 h2
    exact gptForwardLen_none_of_k_bad cfg b totalT ht hsub hn (by omega) (by omega)
  · intro r hr
    by_contra hcon
    push_neg at hcon
    rw [gptForwardLen_none_of_k_bad cfg b totalT ht hsub hn hcon.1 hcon.2] at hr
    exact Option.noConfusion hr

/-- C4 witness: with `sub_block_size = 3`, `patch_size = 3`, `n_layer = 1`,
an input of length 4 has `k = 2` with `1 < 2 < 3`, and the forward pass is
undefined. -/
theorem GPT.forward_defined_only_k_one_or_patch_witness :
    0 < (3 : ℕ) ∧ 1 ≤ (1 : ℕ) ∧ 1 < (4 + 3 - 1) / 3 ∧ (4 + 3 - 1) / 3 < 3 ∧
    gptForwardLen ⟨9, 50, 1, 3, 3⟩ 1 4 true = none :=
  ⟨by norm_num, by norm_num, by norm_num, by norm_num,
   (GPT.forward_defined_only_k_one_or_patch ⟨9, 50, 1, 3, 3⟩ 1 4 true (by decide)
       (by decide)).1 (by decide) (by decide)⟩

/- ----------------------------------------------------------------
C3: shape round-trip
---------------------------------------------------------------- -/

/-- C3 (counterexample).  The claim promises logits of shape
`(B, total_t, vocab_size)` for every `total_t`; but with
`sub_block_size = 2`, `patch_size = 3` (`block_size = 6`), `n_layer = 1`,
an input of length 3 gives a padded sub-block count `k = 2` with
`1 < 2 < 3`, and the forward pass raises on the fusion `x + xu`
(shapes `(B,2,2,d)` against `(B,3,2,d)`) instead of returning logits. -/
theorem GPT.forward_shape_not_universal :
    gptForwardLen ⟨6, 50, 1, 2, 3⟩ 1 3 true = none := by
  decide

/-- C3 (amended).  For every batch size and every sequence length `totalT`
whose padded sub-block count `k = ceil(totalT / sub_block_size)` equals
`patch_size`, or equals 1 with `patch_size ≤ sub_block_size` (so that the
patchify convolution kernel fits), `GPT.forward` with targets returns
logits of shape `(B, totalT, vocab_size)`. -/
theorem GPT.forward_shape_round_trip (cfg : Cfg) (b totalT : ℕ)
    (hsub : 0 < cfg.subBlockSize) (hp : 0 < cfg.patchSize)
    (hblock : cfg.blockSize = cfg.patchSize * cfg.subBlockSize)
    (hk : (totalT + cfg.subBlockSize - 1) / cfg.subBlockSize = cfg.patchSize ∨
      ((totalT + cfg.subBlockSize - 1) / cfg.subBlockSize = 1 ∧
        cfg.patchSize ≤ cfg.subBlockSize)) :
    gptForwardLen cfg b totalT true = some (b, totalT, cfg.vocabSize) := by
  have hsb : cfg.subBlockSize ≤ cfg.blockSize := by
    rw [hblock]
    calc cfg.subBlockSize = 1 * cfg.subBlockSize := (one_mul _).symm
      _ ≤ cfg.patchSize * cfg.subBlockSize := Nat.mul_le_mul_right _ hp
  rw [gptForwardLen_eq cfg b totalT true hsub]
  set k := (totalT + cfg.subBlockSize - 1) / cfg.subBlockSize with hkdef
  have hceil : totalT ≤ k * cfg.subBlockSize := le_ceil_mul _ _ hsub
  have hfix : blockLen cfg (cfg.patchSize, cfg.subBlockSize) =
      some (cfg.patchSize, cfg.subBlockSize) := by
    rw [blockLen_of_k cfg cfg.patchSize hsub hsb, addBroadcastLen_self]
  rcases hk with hk | ⟨hk, hps⟩
  · have hpL : cfg.patchSize ≤ cfg.patchSize * cfg.subBlockSize := by
      calc cfg.patchSize = cfg.patchSize * 1 := (mul_one _).symm
        _ ≤ cfg.patchSize * cfg.subBlockSize := Nat.mul_le_mul_left _ hsub
    have hpat : patchifyLen cfg cfg.patchSize = some cfg.subBlockSize :=
      patchifyLen_eq_sub cfg cfg.patchSize hsub hp (le_refl _) hpL
    have hmin : min totalT (cfg.patchSize * cfg.subBlockSize) = totalT := by
      rw [hk] at hceil
      exact min_eq_left hceil
    simp only [hk, hpat, blocksLen_fixed cfg _ hfix]
    simp [hmin]
  · have hpat : patchifyLen cfg 1 = some cfg.subBlockSize :=
      patchifyLen_eq_sub cfg 1 hsub hp (by omega) (by rw [one_mul]; exact hps)
    rw [hk, one_mul] at hceil
    rcases Nat.eq_zero_or_pos cfg.nLayer with hz | hpos
    · have hmin : min totalT cfg.subBlockSize = totalT := min_eq_left hceil
      simp only [hk, hpat, hz, blocksLen]
      simp [hmin]
    · have h1 : blockLen cfg (1, cfg.subBlockSize) =
          some (cfg.patchSize, cfg.subBlockSize) := by
        rw [blockLen_of_k cfg 1 hsub hsb, addBroadcastLen_one_left]
      have hle : totalT ≤ cfg.patchSize * cfg.subBlockSize := by
        calc totalT ≤ cfg.subBlockSize := hceil
          _ = 1 * cfg.subBlockSize := (one_mul _).symm
          _ ≤ cfg.patchSize * cfg.subBlockSize := Nat.mul_le_mul_right _ hp
      have hmin : min totalT (cfg.patchSize * cfg.subBlockSize) = totalT :=
        min_eq_left hle
      simp only [hk, hpat, blocksLen_after_one cfg _ _ h1 hfix cfg.nLayer hpos]
      simp [hmin]

/-- C3 witness: the amended shape theorem at `sub_block_size = 3`,
`patch_size = 3`, `block_size = 9`, input length 9 (`k = 3 = patch_size`),
and at input length 2 (`k = 1`, kernel fits). -/
theorem GPT.forward_shape_round_trip_witness :
    gptForwardLen ⟨9, 50, 1, 3, 3⟩ 1 9 true = some (1, 9, 50) ∧
    gptForwardLen ⟨9, 50, 1, 3, 3⟩ 1 2 true = some (1, 2, 50) :=
  ⟨GPT.forward_shape_round_trip ⟨9, 50, 1, 3, 3⟩ 1 9 (by decide) (by decide) (by decide)
      (Or.inl (by decide)),
   GPT.forward_shape_round_trip ⟨9, 50, 1, 3, 3⟩ 1 2 (by decide) (by decide) (by decide)
      (Or.inr ⟨by decide, by decide⟩)⟩

/- ----------------------------------------------------------------
GPT.generate (model2.py:354-379)
---------------------------------------------------------------- -/

/-- Context cropping (model2.py:363):
`idx if idx.size(1) <= block_size else idx[:, -block_size:]`. -/
def cropIdx (blockSize : ℕ) (idx : List ℤ) : List ℤ :=
  if idx.length ≤ blockSize then idx else idx.drop (idx.length - blockSize)

/-- Validity of the top-k filtering step (model2.py:369-371): with
`top_k ≤ 0`, `torch.topk` raises for a negative k, and for `k = 0` the
index `v[:, [-1]]` on the empty values tensor raises; the step succeeds
exactly when no `top_k` is given or `top_k ≥ 1`. -/
def topkOk (tk : Option ℤ) : Bool :=
  match tk with
  | none => true
  | some kk => decide (0 < kk)

/-- Top-k filtering of one logits row (model2.py:369-371): entries strictly
below the `min(top_k, size)`-th largest are set to `-inf`, modelled as
`none`. -/
def topkMask (tk : Option ℤ) (l : List ℚ) : List (Option ℚ) :=
  match tk with
  | none => l.map some
  | some kk =>
    let kc := min kk.toNat l.length
    let v := (List.insertionSort (fun x y : ℚ => y ≤ x) l).getD (kc - 1) 0
    l.map (fun x => if x < v then none else some x)

/-- Model of `GPT.generate` (model2.py:354-379) for one batch row.  `fwd` is
the forward pass, returning the last-position logits row or `none` where
`GPT.forward` raises; `sample` abstracts `F.softmax` followed by
`torch.multinomial` (the random draw over the filtered logits).  Each
iteration crops the context to `block_size`, runs the forward pass, scales
the last logits by the temperature, applies the top-k filter (which fails
fast for `top_k ≤ 0`), samples one token, and appends it to the sequence. -/
def GPT.generate (fwd : List ℤ → Option (List ℚ)) (sample : List (Option ℚ) → ℤ)
    (blockSize : ℕ) (tk : Option ℤ) (temp : ℚ) : ℕ → List ℤ → Option (List ℤ)
  | 0, idx => some idx
  | n + 1, idx =>
    match fwd (cropIdx blockSize idx) with
    | none => none
    | some logits =>
      if topkOk tk then
        GPT.generate fwd sample blockSize tk temp n
          (idx ++ [sample (topkMask tk (logits.map (fun z => z / temp)))])
      else none

/-- Shape-level model of the generation loop: each iteration crops the
context, requires the forward pass (without targets) to be defined and the
top-k step to be valid, and grows the sequence length by one. -/
def GPT.generateLen (cfg : Cfg) (tk : Option ℤ) : ℕ → ℕ → Option ℕ
  | 0, t => some t
  | n + 1, t =>
    match gptForwardLen cfg 1 (min t cfg.blockSize) false with
    | none => none
    | some _ => if topkOk tk then GPT.generateLen cfg tk n (t + 1) else none

/- ----------------------------------------------------------------
C9: generation length and fail-fast behaviour
---------------------------------------------------------------- -/

/-- C9 (counterexample).  The claim says `generate` runs exactly
`max_new_tokens` iterations and extends the sequence by exactly that many
tokens, or fails fast on an invalid configuration such as `top_k ≤ 0`.
With `sub_block_size = 3`, `patch_size = 3`, `block_size = 9`,
`n_layer = 1`, a valid configuration (no `top_k`), and a prompt of length 3,
one iteration succeeds (length 4), but asking for two new tokens fails at
the SECOND iteration: the grown length 4 has padded sub-block count `k = 2`
with `1 < 2 < 3`, on which the forward pass raises.  So `generate` neither
completes nor fails fast on an invalid configuration. -/
theorem GPT.generate_not_total :
    GPT.generateLen ⟨9, 50, 1, 3, 3⟩ none 1 3 = some 4 ∧
    GPT.generateLen ⟨9, 50, 1, 3, 3⟩ none 2 3 = none := by
  constructor <;> decide

/-- C9 (amended).  `generate` runs exactly `max_new_tokens` iterations and
extends the sequence length by exactly `max_new_tokens` whenever the top-k
configuration is valid and the forward pass is defined at every intermediate
(cropped) length; and it fails fast (during the first iteration, before any
token is appended) whenever `top_k ≤ 0` is given. -/
theorem GPT.generate_length (cfg : Cfg) (tk : Option ℤ) :
    (∀ n t, topkOk tk = true →
      (∀ i, i < n → (gptForwardLen cfg 1 (min (t + i) cfg.blockSize) false).isSome) →
      GPT.generateLen cfg tk n t = some (t + n)) ∧
    (∀ kk n t, kk ≤ 0 → 1 ≤ n → GPT.generateLen cfg (some kk) n t = none) := by
  constructor
  · intro n
    induction n with
    | zero => intro t _ _; rfl
    | succ n ih =>
        intro t htk hfwd
        have h0 : (gptForwardLen cfg 1 (min (t + 0) cfg.blockSize) false).isSome :=
          hfwd 0 (by omega)
        rw [Nat.add_zero] at h0
        rcases Option.isSome_iff_exists.mp h0 with ⟨r, hr⟩
        simp only [GPT.generateLen, hr, htk, if_pos]
        have := ih (t + 1) htk (fun i hi => by
          have := hfwd (i + 1) (by omega)
          rwa [show t + 1 + i = t + (i + 1) by omega])
        rw [this]
        congr 1
        omega
  · intro kk n t hkk hn
    cases n with
    | zero => omega
    | succ m =>
        have htk : topkOk (some kk) = false := by
          simp [topkOk]
          omega
        cases hr : gptForwardLen cfg 1 (min t cfg.blockSize) false with
        | none => simp only [GPT.generateLen, hr]
        | some r => simp only [GPT.generateLen, hr, htk]; rfl

/-- C9 witness: with `sub_block_size = patch_size = block_size = 1` every
cropped length is forward-defined, so three iterations extend length 5 to
length 8; and `top_k = -1` fails fast. -/
theorem GPT.generate_length_witness :
    GPT.generateLen ⟨1, 2, 1, 1, 1⟩ none 3 5 = some 8 ∧
    GPT.generateLen ⟨1, 2, 1, 1, 1⟩ (some (-1)) 1 5 = none :=
  ⟨(GPT.generate_length ⟨1, 2, 1, 1, 1⟩ none).1 3 5 rfl
      (fun i hi => by interval_cases i <;> decide),
   (GPT.generate_length ⟨1, 2, 1, 1, 1⟩ (some (-1))).2 (-1) 1 5 (by norm_num) (by norm_num)⟩

/- ----------------------------------------------------------------
C10: generation frame property
---------------------------------------------------------------- -/

/-- C10.  For every call of `generate` that completes, the returned sequence
extends the input by exactly `max_new_tokens` tokens and its first
`idx.length` positions are exactly the original input ids (each iteration
only appends; the concatenation `torch.cat((idx, idx_next), dim=1)` of
model2.py:377 creates a fresh tensor and the input is never written to).
This holds for every forward function and every sampler. -/
theorem GPT.generate_frame (fwd : List ℤ → Option (List ℚ)) (sample : List (Option ℚ) → ℤ)
    (blockSize : ℕ) (tk : Option ℤ) (temp : ℚ) :
    ∀ (n : ℕ) (idx res : List ℤ),
      GPT.generate fwd sample blockSize tk temp n idx = some res →
      res.length = idx.length + n ∧ res.take idx.length = idx := by
  intro n
  induction n with
  | zero =>
      intro idx res h
      have hres : res = idx := by
        simpa [GPT.generate] using h.symm
      subst hres
      exact ⟨rfl, List.take_length _⟩
  | succ n ih =>
      intro idx res h
      simp only [GPT.generate] at h
      split at h
      · cases h
      · rename_i logits hf
        by_cases htk : topkOk tk = true
        · rw [if_pos htk] at h
          set tok := sample (topkMask tk (logits.map (fun z => z / temp))) with htok
          have hih := ih (idx ++ [tok]) res h
          have hlen : (idx ++ [tok]).length = idx.length + 1 := by simp
          constructor
          · rw [hih.1, hlen]
            omega
          · have h2 : res.take (idx.length + 1) = idx ++ [tok] := by
              rw [← hlen]
              exact hih.2
            calc res.take idx.length
                = (res.take (idx.length + 1)).take idx.length := by
                  rw [List.take_take]
                  congr 1
                  omega
              _ = (idx ++ [tok]).take idx.length := by rw [h2]
              _ = idx := by simp
        · rw [if_neg htk] at h
          cases h

/-- C10 witness: the frame theorem at a concrete completing run — a constant
forward row and a sampler that always returns 7 extend `[3, 4]` to
`[3, 4, 7, 7]`. -/
theorem GPT.generate_frame_witness :
    GPT.generate (fun _ => some [0]) (fun _ => 7) 4 none 1 2 [3, 4] = some [3, 4, 7, 7] ∧
    ([3, 4, 7, 7] : List ℤ).length = ([3, 4] : List ℤ).length + 2 ∧
    ([3, 4, 7, 7] : List ℤ).take ([3, 4] : List ℤ).length = [3, 4] := by
  have h : GPT.generate (fun _ => some [0]) (fun _ => 7) 4 none 1 2 [3, 4] =
      some [3, 4, 7, 7] := by
    decide
  have hfr := GPT.generate_frame (fun _ => some [0]) (fun _ => 7) 4 none 1 2 [3, 4]
    [3, 4, 7, 7] h
  exact ⟨h, hfr.1, hfr.2⟩

/- ----------------------------------------------------------------
C7: weight tying (GPT.__init__, model2.py:236-248)
---------------------------------------------------------------- -/

/-- Parameter store: tensors addressed by storage id.  PyTorch parameter
aliasing is modelled explicitly: two module attributes alias exactly when
they hold the same storage id, and a write through either is a write to the
shared storage. -/
def Store : Type :=
  ℕ → Tensor2

/-- Write to one storage id of the store. -/
def writeStore (s : Store) (r : ℕ) (v : Tensor2) : Store :=
  fun r' => if r' = r then v else s r'

/-- Storage ids held by the tied `GPT` attributes. -/
structure GPTRefs where
  wteRef : ℕ
  wpeRef : ℕ
  lmHeadRef : ℕ

/-- Storage ids after `GPT.__init__`: construction first allocates distinct
storages for `transformer.wte.weight`, `transformer.wpe.weight` and
`lm_head.weight` (model2.py:236-243), then executes the tying assignment
`self.transformer.wte.weight = self.lm_head.weight` (model2.py:248), after
which the wte attribute holds lm_head's storage id.  No later method of the
class reassigns either attribute. -/
def GPT.initRefs : GPTRefs :=
  let _wteStorage := 0
  let wpeStorage := 1
  let lmHeadStorage := 2
  { wteRef := lmHeadStorage, wpeRef := wpeStorage, lmHeadRef := lmHeadStorage }

/-- C7.  After construction, the input token-embedding table and the output
projection weight are the identical storage (while the position-embedding
table is not), so a mutation of the shared weight through either reference
is observable through the other. -/
theorem GPT.weight_tying :
    GPT.initRefs.wteRef = GPT.initRefs.lmHeadRef ∧
    GPT.initRefs.wpeRef ≠ GPT.initRefs.lmHeadRef ∧
    (∀ (s : Store) (v : Tensor2),
      writeStore s GPT.initRefs.wteRef v GPT.initRefs.lmHeadRef = v ∧
      writeStore s GPT.initRefs.lmHeadRef v GPT.initRefs.wteRef = v) := by
  refine ⟨rfl, by decide, fun s v => ⟨?_, ?_⟩⟩ <;> rfl

/- ----------------------------------------------------------------
C8: optimizer parameter grouping (GPT.configure_optimizers,
model2.py:328-352)
---------------------------------------------------------------- -/

/-- One parameter tensor as seen by `configure_optimizers`: its rank
(`p.dim()`) and its `requires_grad` flag. -/
structure ParamSpec where
  dim : ℕ
  requiresGrad : Bool

/-- One optimizer parameter group (an entry of `optim_groups`). -/
structure OptimGroup where
  params : List ParamSpec
  weight_decay : ℚ

/-- Decayed group (model2.py:330-338): trainable parameters whose rank is at
least 2, with the given weight decay. -/
def decayGroup (wd : ℚ) (ps : List ParamSpec) : OptimGroup :=
  ⟨(ps.filter (fun q => q.requiresGrad)).filter (fun q => decide (2 ≤ q.dim)), wd⟩

/-- Non-decayed group (model2.py:336-339): trainable parameters of rank 0 or
1, with weight decay 0.0. -/
def nodecayGroup (ps : List ParamSpec) : OptimGroup :=
  ⟨(ps.filter (fun q => q.requiresGrad)).filter (fun q => decide (q.dim < 2)), 0⟩

/-- Model of `GPT.configure_optimizers` (model2.py:328-352): the two
optimizer parameter groups.  The learning rate, betas and the fused-AdamW
switch do not affect the grouping. -/
def configure_optimizers (wd : ℚ) (ps : List ParamSpec) : List OptimGroup :=
  [decayGroup wd ps, nodecayGroup ps]

theorem mem_decayGroup (wd : ℚ) (ps : List ParamSpec) (q : ParamSpec) :
    q ∈ (decayGroup wd ps).params ↔ q ∈ ps ∧ q.requiresGrad = true ∧ 2 ≤ q.dim := by
  simp only [decayGroup, List.mem_filter, decide_eq_true_eq]
  tauto

theorem mem_nodecayGroup (ps : List ParamSpec) (q : ParamSpec) :
    q ∈ (nodecayGroup ps).params ↔ q ∈ ps ∧ q.requiresGrad = true ∧ q.dim < 2 := by
  simp only [nodecayGroup, List.mem_filter, decide_eq_true_eq]
  tauto

/-- C8.  `configure_optimizers` partitions exactly the trainable
(gradient-requiring) parameters into two groups: a parameter belongs to the
group receiving the given weight decay iff it is a trainable parameter of
rank at least 2, it belongs to the group with weight decay 0.0 iff it is a
trainable parameter of rank 0 or 1, and no parameter belongs to both. -/
theorem GPT.configure_optimizers_grouping (wd : ℚ) (ps : List ParamSpec) :
    configure_optimizers wd ps = [decayGroup wd ps, nodecayGroup ps] ∧
    (decayGroup wd ps).weight_decay = wd ∧
    (nodecayGroup ps).weight_decay = 0 ∧
    (∀ q, q ∈ (decayGroup wd ps).params ↔
      q ∈ ps ∧ q.requiresGrad = true ∧ 2 ≤ q.dim) ∧
    (∀ q, q ∈ (nodecayGroup ps).params ↔
      q ∈ ps ∧ q.requiresGrad = true ∧ q.dim < 2) ∧
    (∀ q, ¬(q ∈ (decayGroup wd ps).params ∧ q ∈ (nodecayGroup ps).params)) := by
  refine ⟨rfl, rfl, rfl, mem_decayGroup wd ps, mem_nodecayGroup ps, ?_⟩
  intro q hq
  have h1 := (mem_decayGroup wd ps q).mp hq.1
  have h2 := (mem_nodecayGroup ps q).mp hq.2
  omega

end CharLM
